import Mathlib

/-!
Verification of the local-first storage / sync engine of the
ai-content-capture-extension repository.

The TypeScript sources are shallowly embedded: strings are lists of
characters, JS numbers used as 32-bit integers are `Int` with explicit
wrapping, floats used for similarity scores are modelled as exact `ℚ`,
and the `createdAt` ISO timestamp string is modelled by the integer
timestamp that `new Date(createdAt).getTime()` yields (the code only
ever compares these values).  `JSON.stringify` / `JSON.parse` and
`new URL(...)` are platform functions, not repository code, so they are
parameters of the definitions that call them.
-/

/-- JS strings are modelled as lists of characters. -/
abbrev Str := List Char

/-- `type` field of a content entry (src/types: `'text' | 'image' | 'page'`). -/
inductive EntryType where
  | text
  | image
  | page
deriving DecidableEq, Repr

/-- `StudyNotes.detailLevel` (src/types). -/
inductive DetailLevel where
  | brief
  | detailed
  | bullets
deriving DecidableEq, Repr

/-- `StudyNotes` structure from src/types/index.ts. -/
structure StudyNotes where
  briefSummary : Str
  detailedSummary : Str
  bulletPoints : List Str
  keyPoints : List Str
  questions : List Str
  actionItems : List Str
  generatedAt : Str
  detailLevel : DetailLevel
deriving DecidableEq, Repr

/-- The optional `metadata` map of a `ContentEntry` (src/types/index.ts).
Optional TS fields become `Option`. -/
structure EntryMetadata where
  imageUrl : Option Str := none
  altText : Option Str := none
  pageTitle : Option Str := none
  selectionText : Option Str := none
  headers : Option (List Str) := none
  headersText : Option Str := none
  htmlContent : Option Str := none
  wordCount : Option Nat := none
  studyNotes : Option StudyNotes := none
deriving DecidableEq, Repr

/-- `ContentEntry` from src/types/index.ts.  `createdAt` is an ISO string in
TS; the code only compares it through `new Date(...).getTime()`, so it is
modelled by that integer timestamp. -/
structure Entry where
  id : Str
  title : Str
  url : Str
  content : Str
  tags : List Str
  summary : Str
  category : Str
  createdAt : Int
  type : EntryType
  metadata : Option EntryMetadata := none
deriving DecidableEq, Repr

/-! ## Sync codec (src/services/storage.ts, `splitEntryIntoChunks` /
`reconstructEntryFromChunks`) -/

/-- `MAX_CHUNK_SIZE = 7000` (storage.ts line 14). -/
def MAX_CHUNK_SIZE : Nat := 7000

/-- `SYNC_QUOTA_BYTES = 100 * 1024` (storage.ts line 15). -/
def SYNC_QUOTA_BYTES : Nat := 100 * 1024

/-- `EntryChunk` interface (storage.ts lines 17-22). -/
structure EntryChunk where
  id : Str
  chunkIndex : Nat
  totalChunks : Nat
  data : Str
deriving DecidableEq, Repr

/-- `splitEntryIntoChunks` (storage.ts lines 124-141): serialize the entry,
compute `totalChunks = Math.ceil(len / MAX_CHUNK_SIZE)` and push the
consecutive substrings `entryJson.substring(i*c, min((i+1)*c, len))`.
`stringify` stands for the platform `JSON.stringify`. -/
def splitEntryIntoChunks (stringify : Entry → Str) (e : Entry) : List EntryChunk :=
  let entryJson := stringify e
  let totalChunks := (entryJson.length + MAX_CHUNK_SIZE - 1) / MAX_CHUNK_SIZE
  (List.range totalChunks).map fun i =>
    { id := e.id
      chunkIndex := i
      totalChunks := totalChunks
      data := (entryJson.drop (i * MAX_CHUNK_SIZE)).take MAX_CHUNK_SIZE }

/-- The comparator `(a, b) => a.chunkIndex - b.chunkIndex` passed to the
(stable) JS `Array.prototype.sort` in `reconstructEntryFromChunks`. -/
def chunkLe (a b : EntryChunk) : Bool :=
  a.chunkIndex ≤ b.chunkIndex

/-- `reconstructEntryFromChunks` (storage.ts lines 144-159): empty input is
rejected, the chunks are sorted by index, the set size must equal the
`totalChunks` declared by chunk 0, and the joined data is parsed.
`parse` stands for the platform `JSON.parse`. -/
def reconstructEntryFromChunks (parse : Str → Option Entry)
    (chunks : List EntryChunk) : Option Entry :=
  if chunks.length = 0 then none
  else
    let sorted := chunks.mergeSort chunkLe
    match sorted with
    | [] => none
    | c0 :: rest =>
      if (c0 :: rest).length ≠ c0.totalChunks then none
      else parse (((c0 :: rest).map (·.data)).flatten)

/-! ### Chunking lemmas -/

/-- Rejoining the consecutive `take c`-pieces of a string gives the string
back, for any positive chunk size `c`. -/
theorem flatten_chunk_pieces (c : Nat) (hc : 0 < c) (s : Str) :
    ((List.range ((s.length + c - 1) / c)).map
      (fun i => (s.drop (i * c)).take c)).flatten = s := by
  generalize hn : s.length = n
  induction n using Nat.strong_induction_on generalizing s with
  | _ n ih =>
    rcases s with - | ⟨a, t⟩
    · have h0 : (0 + c - 1) / c = 0 := Nat.div_eq_of_lt (by omega)
      simp at hn
      subst hn
      simp [h0]
    · have hlen : t.length + 1 = n := by simpa using hn
      have hpos : 0 < n := by omega
      have hsplit : (n + c - 1) / c = (n - 1) / c + 1 := by
        have : n + c - 1 = (n - 1) + 1 * c := by omega
        rw [this, Nat.add_mul_div_right _ _ hc]
      rw [hsplit, List.range_succ_eq_map]
      simp only [List.map_cons, List.map_map, List.flatten_cons]
      have hzero : ((a :: t).drop (0 * c)).take c = (a :: t).take c := by simp
      have hshift :
          (List.range ((n - 1) / c)).map ((fun i => ((a :: t).drop (i * c)).take c) ∘ Nat.succ)
            = (List.range ((n - 1) / c)).map
                (fun i => (((a :: t).drop c).drop (i * c)).take c) := by
        apply List.map_congr_left
        intro i _
        simp only [Function.comp_apply]
        rw [List.drop_drop, Nat.succ_mul, Nat.add_comm (i * c) c]
      rw [hzero, hshift]
      by_cases hcase : n ≤ c
      · have hd : (a :: t).drop c = [] := by
          apply List.drop_eq_nil_of_le
          omega
        have hm : (n - 1) / c = 0 := Nat.div_eq_of_lt (by omega)
        rw [hm, hd]
        simp
        omega
      · have hdl : ((a :: t).drop c).length = n - c := by
          simp
          omega
        have hm : ((n - c) + c - 1) / c = (n - 1) / c := by
          congr 1
          omega
        have := ih (n - c) (by omega) ((a :: t).drop c) hdl
        rw [hm] at this
        rw [this]
        exact List.take_append_drop c (a :: t)

/-- Every chunk produced by `splitEntryIntoChunks` carries the total chunk
count as its `totalChunks` field. -/
theorem totalChunks_of_mem_split (stringify : Entry → Str) (e : Entry)
    (ch : EntryChunk) (h : ch ∈ splitEntryIntoChunks stringify e) :
    ch.totalChunks = ((stringify e).length + MAX_CHUNK_SIZE - 1) / MAX_CHUNK_SIZE := by
  simp only [splitEntryIntoChunks, List.mem_map, List.mem_range] at h
  obtain ⟨i, -, rfl⟩ := h
  rfl

/-- The chunk list produced by `splitEntryIntoChunks` has exactly
`ceil(len / MAX_CHUNK_SIZE)` elements. -/
theorem length_split (stringify : Entry → Str) (e : Entry) :
    (splitEntryIntoChunks stringify e).length
      = ((stringify e).length + MAX_CHUNK_SIZE - 1) / MAX_CHUNK_SIZE := by
  simp [splitEntryIntoChunks]

/-- The chunk list produced by `splitEntryIntoChunks` is already sorted by
`chunkIndex`, so the stable sort leaves it unchanged. -/
theorem split_sorted (stringify : Entry → Str) (e : Entry) :
    (splitEntryIntoChunks stringify e).Pairwise (fun a b => chunkLe a b = true) := by
  simp only [splitEntryIntoChunks]
  rw [List.pairwise_map]
  apply (List.pairwise_lt_range _).imp
  intro i j hij
  simp [chunkLe]
  omega

/-- `mergeSort` is the identity on the chunk list produced by split. -/
theorem mergeSort_split (stringify : Entry → Str) (e : Entry) :
    (splitEntryIntoChunks stringify e).mergeSort chunkLe
      = splitEntryIntoChunks stringify e :=
  List.mergeSort_of_sorted (split_sorted stringify e)

/-- C1: codec round-trip.  For every entry `e`, reconstructing the chunk list
produced by splitting `e` returns `e`, whenever the platform JSON codec
round-trips on `e` (`parse (stringify e) = some e`) and serializes `e` to a
nonempty string (`JSON.stringify` of an object always does).  The statement
quantifies over every serialized length, so it covers in particular the
boundary cases where the length is an exact multiple of the chunk size and a
multiple plus one. -/
theorem split_reconstruct_roundtrip
    (stringify : Entry → Str) (parse : Str → Option Entry) (e : Entry)
    (hparse : parse (stringify e) = some e) (hne : stringify e ≠ []) :
    reconstructEntryFromChunks parse (splitEntryIntoChunks stringify e) = some e := by
  have hc : 0 < MAX_CHUNK_SIZE := by norm_num [MAX_CHUNK_SIZE]
  have hlen0 : 0 < (stringify e).length := List.length_pos.mpr hne
  have hlen : (splitEntryIntoChunks stringify e).length
      = ((stringify e).length + MAX_CHUNK_SIZE - 1) / MAX_CHUNK_SIZE :=
    length_split stringify e
  have hn1 : 0 < ((stringify e).length + MAX_CHUNK_SIZE - 1) / MAX_CHUNK_SIZE :=
    Nat.div_pos (by omega) hc
  have hnil : splitEntryIntoChunks stringify e ≠ [] := by
    intro h
    rw [h] at hlen
    simp at hlen
    omega
  obtain ⟨c0, rest, hcons⟩ := List.exists_cons_of_ne_nil hnil
  have hc0 : c0.totalChunks
      = ((stringify e).length + MAX_CHUNK_SIZE - 1) / MAX_CHUNK_SIZE :=
    totalChunks_of_mem_split stringify e c0 (hcons ▸ List.mem_cons_self c0 rest)
  have hdata : ((c0 :: rest).map (·.data)).flatten = stringify e := by
    rw [← hcons]
    simp only [splitEntryIntoChunks, List.map_map]
    exact flatten_chunk_pieces MAX_CHUNK_SIZE hc (stringify e)
  simp only [reconstructEntryFromChunks]
  rw [if_neg (by omega : ¬(splitEntryIntoChunks stringify e).length = 0)]
  rw [mergeSort_split, hcons]
  have hlc : (c0 :: rest).length = c0.totalChunks := by
    rw [← hcons, hlen, hc0]
  show (if (c0 :: rest).length ≠ c0.totalChunks then none
        else parse (((c0 :: rest).map (·.data)).flatten)) = some e
  rw [if_neg (by simp [hlc])]
  rw [hdata, hparse]

/-- Concrete entry used by the witness theorems below. -/
def sampleEntry : Entry where
  id := "a1".data
  title := "Sample".data
  url := "https://x.com/a".data
  content := "hello world".data
  tags := ["general".data]
  summary := "a sample".data
  category := "General".data
  createdAt := 1000
  type := .text

/-- A trivial stand-in for `JSON.stringify`, correct at `sampleEntry`. -/
def stringifyConst : Entry → Str := fun _ => "{}".data

/-- A trivial stand-in for `JSON.parse`, inverse of `stringifyConst` at
`sampleEntry`. -/
def parseConst : Str → Option Entry := fun s =>
  if s = "{}".data then some sampleEntry else none

theorem split_reconstruct_roundtrip_witness :
    parseConst (stringifyConst sampleEntry) = some sampleEntry ∧
    stringifyConst sampleEntry ≠ [] ∧
    reconstructEntryFromChunks parseConst
      (splitEntryIntoChunks stringifyConst sampleEntry) = some sampleEntry :=
  ⟨by decide, by decide,
    split_reconstruct_roundtrip stringifyConst parseConst sampleEntry
      (by decide) (by decide)⟩

/-- C2: removing any single chunk from a multi-chunk set makes reconstruction
fail with `none` (the `ReconstructionIncomplete` outcome); it never produces
an entry from the remaining fragments, whatever the JSON parser does. -/
theorem reconstruct_after_chunk_removal
    (stringify : Entry → Str) (parse : Str → Option Entry) (e : Entry) (i : Nat)
    (h2 : 2 ≤ (splitEntryIntoChunks stringify e).length)
    (hi : i < (splitEntryIntoChunks stringify e).length) :
    reconstructEntryFromChunks parse
      ((splitEntryIntoChunks stringify e).eraseIdx i) = none := by
  have hsub : List.Sublist ((splitEntryIntoChunks stringify e).eraseIdx i)
      (splitEntryIntoChunks stringify e) := List.eraseIdx_sublist _ i
  have hlenE : ((splitEntryIntoChunks stringify e).eraseIdx i).length
      = (splitEntryIntoChunks stringify e).length - 1 := by
    rw [List.length_eraseIdx]
    simp [hi]
  have hsorted : ((splitEntryIntoChunks stringify e).eraseIdx i).Pairwise
      (fun a b => chunkLe a b = true) :=
    (split_sorted stringify e).sublist hsub
  have hms : ((splitEntryIntoChunks stringify e).eraseIdx i).mergeSort chunkLe
      = (splitEntryIntoChunks stringify e).eraseIdx i :=
    List.mergeSort_of_sorted hsorted
  have hnil : ((splitEntryIntoChunks stringify e).eraseIdx i) ≠ [] := by
    intro h
    rw [h] at hlenE
    simp at hlenE
    omega
  obtain ⟨c0, rest, hcons⟩ := List.exists_cons_of_ne_nil hnil
  have hc0 : c0.totalChunks
      = ((stringify e).length + MAX_CHUNK_SIZE - 1) / MAX_CHUNK_SIZE :=
    totalChunks_of_mem_split stringify e c0
      (hsub.subset (hcons ▸ List.mem_cons_self c0 rest))
  have hN : (splitEntryIntoChunks stringify e).length = c0.totalChunks := by
    rw [hc0, length_split]
  simp only [reconstructEntryFromChunks]
  rw [if_neg (by omega : ¬((splitEntryIntoChunks stringify e).eraseIdx i).length = 0)]
  rw [hms, hcons]
  show (if (c0 :: rest).length ≠ c0.totalChunks then none
        else parse (((c0 :: rest).map (·.data)).flatten)) = none
  rw [if_pos]
  rw [← hcons, hlenE]
  omega

/-- Stand-in for `JSON.stringify` returning a string of 7001 characters, so
that the split of any entry has exactly two chunks. -/
def stringifyBig : Entry → Str := fun _ => List.replicate 7001 'a'

theorem reconstruct_after_chunk_removal_witness :
    2 ≤ (splitEntryIntoChunks stringifyBig sampleEntry).length ∧
    0 < (splitEntryIntoChunks stringifyBig sampleEntry).length ∧
    reconstructEntryFromChunks parseConst
      ((splitEntryIntoChunks stringifyBig sampleEntry).eraseIdx 0) = none := by
  have hlen2 : (splitEntryIntoChunks stringifyBig sampleEntry).length = 2 := by
    have hb : stringifyBig sampleEntry = List.replicate 7001 'a' := rfl
    rw [length_split, hb, List.length_replicate]
    norm_num [MAX_CHUNK_SIZE]
  exact ⟨by omega, by omega,
    reconstruct_after_chunk_removal stringifyBig parseConst sampleEntry 0
      (by omega) (by omega)⟩

/-! ## Remote push (src/services/storage.ts, `saveEntryToSyncStorage`,
`saveEntry`, `deleteEntry`)

`chrome.storage.sync` is an external replica; its behavior is an oracle: how
many bytes are in use, which chunk keys the verification read finds present
after the write, and whether the index verification read finds the entry. -/

/-- `SYNC_STORAGE_PREFIX = 'entry_'` (storage.ts line 11). -/
def syncEntryKeyBase : Str := "entry_".data

/-- The chunk keys `` `${SYNC_STORAGE_PREFIX}${entry.id}_${chunk.chunkIndex}` ``
computed in `saveEntryToSyncStorage` (storage.ts lines 292-294). -/
def chunkKeysOf (stringify : Entry → Str) (e : Entry) : List Str :=
  (splitEntryIntoChunks stringify e).map fun chunk =>
    syncEntryKeyBase ++ e.id ++ "_".data ++ (Nat.repr chunk.chunkIndex).data

/-- The calls `saveEntryToSyncStorage` issues against the remote replica, in
order. -/
inductive RemoteEvent where
  | getBytesInUse
  | setChunks (keys : List Str)
  | getChunks (keys : List Str)
  | getIndex
  | setIndex
deriving DecidableEq, Repr

/-- Behavior of the `chrome.storage.sync` replica during one push. -/
structure SyncOracle where
  bytesInUse : Nat
  /-- keys the chunk verification read (line 308) finds defined -/
  presentAfterWrite : List Str → List Str
  /-- whether the index verification read (line 333) finds the entry -/
  indexHasEntryAfterWrite : Bool

/-- `saveEntryToSyncStorage` (storage.ts lines 276-338): read bytes-in-use (a
quota overrun only logs a warning, line 286), write all chunks, re-read them to
verify, fail if any chunk is missing; only then read the index, write the
updated index, and re-read it to verify.  Returns the outcome and the ordered
trace of remote calls. -/
def saveEntryToSyncStorage (o : SyncOracle) (stringify : Entry → Str)
    (e : Entry) : Except Str Unit × List RemoteEvent :=
  let chunkKeys := chunkKeysOf stringify e
  let savedChunks := o.presentAfterWrite chunkKeys
  if savedChunks.length ≠ chunkKeys.length then
    (Except.error "Failed to save all chunks".data,
     [.getBytesInUse, .setChunks chunkKeys, .getChunks chunkKeys])
  else if o.indexHasEntryAfterWrite then
    (Except.ok (),
     [.getBytesInUse, .setChunks chunkKeys, .getChunks chunkKeys,
      .getIndex, .setIndex, .getIndex])
  else
    (Except.error "Failed to save entry to index".data,
     [.getBytesInUse, .setChunks chunkKeys, .getChunks chunkKeys,
      .getIndex, .setIndex, .getIndex])

/-- C8: in every run of the remote push, the index write happens only after
the chunks were written and the verification re-read found them all present
(the trace is then exactly write-bytes-check, chunk write, chunk verify, index
read, index write, index verify, in this order, so the index update is itself
re-read to verify); and if chunk verification finds any chunk missing, the
push fails with no `setIndex` event ever issued. -/
theorem syncPush_index_only_after_verified_chunks (o : SyncOracle)
    (stringify : Entry → Str) (e : Entry) :
    (((o.presentAfterWrite (chunkKeysOf stringify e)).length
        ≠ (chunkKeysOf stringify e).length) →
      (∃ msg, (saveEntryToSyncStorage o stringify e).fst = Except.error msg) ∧
      RemoteEvent.setIndex ∉ (saveEntryToSyncStorage o stringify e).snd) ∧
    (RemoteEvent.setIndex ∈ (saveEntryToSyncStorage o stringify e).snd →
      (o.presentAfterWrite (chunkKeysOf stringify e)).length
        = (chunkKeysOf stringify e).length ∧
      (saveEntryToSyncStorage o stringify e).snd =
        [.getBytesInUse, .setChunks (chunkKeysOf stringify e),
         .getChunks (chunkKeysOf stringify e), .getIndex, .setIndex, .getIndex]) := by
  by_cases hv : (o.presentAfterWrite (chunkKeysOf stringify e)).length
      = (chunkKeysOf stringify e).length
  · constructor
    · intro h
      exact absurd hv h
    · intro _
      refine ⟨hv, ?_⟩
      by_cases hi : o.indexHasEntryAfterWrite <;>
        simp [saveEntryToSyncStorage, hv, hi]
  · constructor
    · intro _
      simp only [saveEntryToSyncStorage, if_pos (by simpa using hv)]
      exact ⟨⟨_, rfl⟩, by simp⟩
    · intro h
      simp only [saveEntryToSyncStorage, if_pos (by simpa using hv)] at h
      simp at h

/-- A replica on which the chunk verification read finds nothing. -/
def oracleFailChunks : SyncOracle where
  bytesInUse := 0
  presentAfterWrite := fun _ => []
  indexHasEntryAfterWrite := false

theorem syncPush_index_only_after_verified_chunks_witness :
    ((oracleFailChunks.presentAfterWrite
        (chunkKeysOf stringifyConst sampleEntry)).length
      ≠ (chunkKeysOf stringifyConst sampleEntry).length) ∧
    ((∃ msg, (saveEntryToSyncStorage oracleFailChunks stringifyConst
        sampleEntry).fst = Except.error msg) ∧
      RemoteEvent.setIndex ∉ (saveEntryToSyncStorage oracleFailChunks
        stringifyConst sampleEntry).snd) :=
  ⟨by decide,
    (syncPush_index_only_after_verified_chunks oracleFailChunks stringifyConst
      sampleEntry).1 (by decide)⟩

/-- `saveEntry` (storage.ts lines 238-273).  The local IndexedDB `put` outcome
is the parameter `localPut`; the remote half runs only when `useSyncStorage`
and availability hold, and its outcome — whatever the replica does — is caught
and only logged (lines 255-265); `enforceStorageLimits` catches every error it
can raise internally (lines 340-373), so it never fails the save. -/
def saveEntryOutcome (localPut : Except Str Unit) (useSync syncAvailable : Bool)
    (o : SyncOracle) (stringify : Entry → Str) (e : Entry) : Except Str Unit :=
  match localPut with
  | .error msg => .error msg
  | .ok _ =>
    let _remote := if useSync && syncAvailable
      then (saveEntryToSyncStorage o stringify e).fst else .ok ()
    .ok ()

/-- `deleteEntry` (storage.ts lines 523-544).  The local IndexedDB `delete`
outcome is `localDelete`; the remote delete outcome `remoteDelete` is caught
and only logged (lines 538-542). -/
def deleteEntryOutcome (localDelete : Except Str Unit)
    (useSync syncAvailable : Bool) (remoteDelete : Except Str Unit) :
    Except Str Unit :=
  match localDelete with
  | .error msg => .error msg
  | .ok _ =>
    let _remote := if useSync && syncAvailable then remoteDelete else .ok ()
    .ok ()

/-- C3: asymmetric durability.  Whatever the remote replica does (unavailable,
failing chunk writes, verification mismatches, arbitrary delete failures),
`saveEntry` succeeds whenever the local write succeeds and `deleteEntry`
succeeds whenever the local delete succeeds: remote errors never propagate. -/
theorem save_delete_asymmetric_durability
    (localPut localDelete remoteDelete : Except Str Unit)
    (useSync syncAvailable : Bool) (o : SyncOracle)
    (stringify : Entry → Str) (e : Entry) :
    (localPut = .ok () →
      saveEntryOutcome localPut useSync syncAvailable o stringify e
        = .ok ()) ∧
    (localDelete = .ok () →
      deleteEntryOutcome localDelete useSync syncAvailable remoteDelete
        = .ok ()) := by
  constructor
  · intro h
    subst h
    rfl
  · intro h
    subst h
    rfl

theorem save_delete_asymmetric_durability_witness :
    (Except.ok () = (Except.ok () : Except Str Unit)) ∧
    saveEntryOutcome (Except.ok ()) true true oracleFailChunks stringifyConst
      sampleEntry = Except.ok () ∧
    deleteEntryOutcome (Except.ok ()) true true
      (Except.error "sync unavailable".data) = Except.ok () := by
  have h := save_delete_asymmetric_durability (Except.ok ())
    (Except.ok ()) (Except.error "sync unavailable".data) true true
    oracleFailChunks stringifyConst sampleEntry
  exact ⟨rfl, h.1 rfl, h.2 rfl⟩

/-! ## Local store and entry merge (src/services/storage.ts,
`getEntry` / `saveEntry` local half / `deleteEntry` local half /
`mergeEntries`)

The IndexedDB object store keyed by `id` is modelled as a list of entries
with unique lookup by id. -/

/-- `store.get(id)` on the entries object store. -/
def getEntry (store : List Entry) (id : Str) : Option Entry :=
  store.find? fun e => e.id = id

/-- `store.put(entry)` on the entries object store: overwrite-by-id, insert
if absent. -/
def putEntry (store : List Entry) (e : Entry) : List Entry :=
  if store.any (fun x => x.id = e.id) then
    store.map fun x => if x.id = e.id then e else x
  else store ++ [e]

/-- `store.delete(id)` on the entries object store. -/
def deleteEntryLocal (store : List Entry) (id : Str) : List Entry :=
  store.filter fun e => ¬ e.id = id

/-- `[...new Set(list)]`: JS `Set` iteration order keeps the first
occurrence of each element. -/
def jsSetDedup {α : Type} [DecidableEq α] : List α → List α
  | [] => []
  | a :: rest => a :: jsSetDedup (rest.filter (· ≠ a))
termination_by l => l.length
decreasing_by
  simp only [List.length_cons]
  exact Nat.lt_succ_of_le (List.length_filter_le _ _)

theorem mem_jsSetDedup {α : Type} [DecidableEq α] (l : List α) (x : α) :
    x ∈ jsSetDedup l ↔ x ∈ l := by
  induction l using jsSetDedup.induct with
  | case1 => simp [jsSetDedup]
  | case2 a rest ih =>
    rw [jsSetDedup]
    by_cases hx : x = a
    · subst hx
      simp
    · simp only [List.mem_cons, ih, List.mem_filter]
      simp [hx]

/-- `a || b` on JS strings: the left operand unless it is falsy (empty). -/
def orFalsy (a b : Str) : Str :=
  if a = [] then b else a

/-- `x?.f || y?.f` for optional string fields: the left value unless the
field is missing or empty. -/
def orFalsyOpt (a b : Option Str) : Option Str :=
  match a with
  | some s => if s = [] then b else some s
  | none => b

/-- The metadata merge inside `mergeEntries` (storage.ts lines 935-953):
object spread `{...source.metadata, ...target.metadata}` key by key, then
explicit rules for `pageTitle`, `selectionText`, `headers`, `headersText`
and `studyNotes`. -/
def mergeMetadata (source target : Option EntryMetadata) : EntryMetadata :=
  let s := source.getD {}
  let t := target.getD {}
  { imageUrl := (t.imageUrl).or s.imageUrl
    altText := (t.altText).or s.altText
    pageTitle := orFalsyOpt t.pageTitle s.pageTitle
    selectionText := orFalsyOpt t.selectionText s.selectionText
    headers := some (jsSetDedup ((t.headers.getD []) ++ (s.headers.getD [])))
    headersText := some
      ((([t.headersText, s.headersText].filterMap id).filter
        (fun x => x ≠ [])).intersperse "\n\n".data).flatten
    htmlContent := (t.htmlContent).or s.htmlContent
    wordCount := (t.wordCount).or s.wordCount
    studyNotes := (t.studyNotes).or s.studyNotes }

/-- The composite entry computed by `mergeEntries` (storage.ts lines
912-954). -/
def mergedEntryOf (source target : Entry) : Entry where
  id := target.id
  title := orFalsy target.title source.title
  url := target.url
  type := target.type
  createdAt := if source.createdAt < target.createdAt
    then source.createdAt else target.createdAt
  tags := jsSetDedup (target.tags ++ source.tags)
  summary := if target.summary = source.summary
    then target.summary
    else target.summary ++ "\n\n".data ++ source.summary
  category := orFalsy target.category source.category
  content := if source.content.length ≤ target.content.length
    then target.content else source.content
  metadata := some (mergeMetadata source.metadata target.metadata)

/-- Failures `mergeEntries` can report. -/
inductive MergeFailure where
  | notFound (id : Str)
  | saveFailed
  | deleteFailed
deriving DecidableEq, Repr

/-- `mergeEntries(sourceId, targetId)` (storage.ts lines 890-963): look up
both entries (throwing not-found if either is absent), build the composite,
save it under the target id, then delete the source.  The local put/delete
outcomes are the parameters `putOk` / `delOk`; a thrown error leaves the
remaining steps unexecuted.  Returns the reported outcome together with the
resulting local store. -/
def mergeEntries (store : List Entry) (sourceId targetId : Str)
    (putOk delOk : Bool) : Except MergeFailure Entry × List Entry :=
  match getEntry store sourceId with
  | none => (Except.error (.notFound sourceId), store)
  | some source =>
    match getEntry store targetId with
    | none => (Except.error (.notFound targetId), store)
    | some target =>
      let merged := mergedEntryOf source target
      if putOk then
        let afterSave := putEntry store merged
        if delOk then
          (Except.ok merged, deleteEntryLocal afterSave sourceId)
        else (Except.error .deleteFailed, afterSave)
      else (Except.error .saveFailed, store)

/-- `put` keeps every id that could already be found present. -/
theorem getEntry_putEntry_isSome (store : List Entry) (e : Entry) (id : Str)
    (src : Entry) (h : getEntry store id = some src) :
    ∃ x, getEntry (putEntry store e) id = some x := by
  unfold getEntry at h ⊢
  unfold putEntry
  by_cases hany : store.any (fun x => x.id = e.id)
  · rw [if_pos hany, List.find?_map]
    have hpf : ((fun y : Entry => decide (y.id = id)) ∘
        (fun x => if x.id = e.id then e else x))
        = fun x : Entry => decide (x.id = id) := by
      funext x
      by_cases hx : x.id = e.id
      · simp only [Function.comp_apply, if_pos hx]
        rw [← hx]
      · simp only [Function.comp_apply, if_neg hx]
    rw [hpf, h]
    exact ⟨_, rfl⟩
  · rw [if_neg hany, List.find?_append, h]
    exact ⟨src, rfl⟩

/-- C5: the composite rule of `mergeEntries`.  When both ids are present the
merge returns the composite entry: identity from the target, earliest
`createdAt`, tag union, summary kept or concatenated (target first, separated
by a blank line), category from target with fallback to source, and the
longer content. -/
theorem mergeEntries_composite_rule
    (store : List Entry) (sourceId targetId : Str) (source target : Entry)
    (hs : getEntry store sourceId = some source)
    (ht : getEntry store targetId = some target) :
    (mergeEntries store sourceId targetId true true).fst
        = Except.ok (mergedEntryOf source target) ∧
    (mergedEntryOf source target).id = target.id ∧
    (mergedEntryOf source target).url = target.url ∧
    (mergedEntryOf source target).type = target.type ∧
    (mergedEntryOf source target).createdAt
        = min source.createdAt target.createdAt ∧
    (∀ x, x ∈ (mergedEntryOf source target).tags ↔
        x ∈ target.tags ∨ x ∈ source.tags) ∧
    (mergedEntryOf source target).summary
        = (if target.summary = source.summary then target.summary
           else target.summary ++ "\n\n".data ++ source.summary) ∧
    (mergedEntryOf source target).category
        = (if target.category = [] then source.category
           else target.category) ∧
    ((mergedEntryOf source target).content = target.content ∨
        (mergedEntryOf source target).content = source.content) ∧
    (mergedEntryOf source target).content.length
        = max target.content.length source.content.length := by
  refine ⟨?_, rfl, rfl, rfl, ?_, ?_, rfl, rfl, ?_, ?_⟩
  · simp [mergeEntries, hs, ht]
  · simp only [mergedEntryOf]
    rw [min_def]
    split_ifs <;> omega
  · intro x
    simp [mergedEntryOf, mem_jsSetDedup]
  · simp only [mergedEntryOf]
    split_ifs with h
    · exact Or.inl rfl
    · exact Or.inr rfl
  · simp only [mergedEntryOf]
    split_ifs with h <;> omega

/-- Second entry for the merge witnesses. -/
def entryB : Entry where
  id := "b2".data
  title := "Other".data
  url := "https://x.com/b".data
  content := "something longer than hello world".data
  tags := ["general".data, "other".data]
  summary := "b summary".data
  category := []
  createdAt := 500
  type := .text

/-- Store holding the two merge-witness entries. -/
def mergeStore : List Entry := [sampleEntry, entryB]

theorem mergeEntries_composite_rule_witness :
    getEntry mergeStore "a1".data = some sampleEntry ∧
    getEntry mergeStore "b2".data = some entryB ∧
    (mergeEntries mergeStore "a1".data "b2".data true true).fst
      = Except.ok (mergedEntryOf sampleEntry entryB) :=
  ⟨by decide, by decide,
    (mergeEntries_composite_rule mergeStore "a1".data "b2".data
      sampleEntry entryB (by decide) (by decide)).1⟩

/-- C6: `mergeEntries` fails with a not-found error and leaves the store
completely untouched whenever either id is absent; and in every failing run
(not-found, failed save, failed delete) the source entry has not been
deleted. -/
theorem mergeEntries_notFound_no_deletion
    (store : List Entry) (sourceId targetId : Str) (putOk delOk : Bool) :
    ((getEntry store sourceId = none ∨ getEntry store targetId = none) →
      ∃ j, mergeEntries store sourceId targetId putOk delOk
          = (Except.error (.notFound j), store)) ∧
    (∀ f, (mergeEntries store sourceId targetId putOk delOk).fst
        = Except.error f →
      ∀ src, getEntry store sourceId = some src →
        ∃ x, getEntry (mergeEntries store sourceId targetId putOk delOk).snd
            sourceId = some x) := by
  constructor
  · intro h
    unfold mergeEntries
    match hsrc : getEntry store sourceId with
    | none => exact ⟨sourceId, rfl⟩
    | some source =>
      match htgt : getEntry store targetId with
      | none => exact ⟨targetId, rfl⟩
      | some target =>
        rw [hsrc, htgt] at h
        rcases h with h | h <;> exact absurd h (by simp)
  · intro f hf src hsrc
    unfold mergeEntries at hf ⊢
    rw [hsrc] at hf ⊢
    match htgt : getEntry store targetId with
    | none =>
      simp only [htgt]
      exact ⟨src, hsrc⟩
    | some target =>
      simp only [htgt] at hf ⊢
      by_cases hput : putOk
      · by_cases hdel : delOk
        · simp [hput, hdel] at hf
        · simp only [hput, hdel, if_pos, if_neg, Bool.false_eq_true,
            if_false, if_true]
          exact getEntry_putEntry_isSome store
            (mergedEntryOf src target) sourceId src hsrc
      · simp only [hput, Bool.false_eq_true, if_false]
        exact ⟨src, hsrc⟩

theorem mergeEntries_notFound_no_deletion_witness :
    (getEntry mergeStore "zz".data = none ∨
      getEntry mergeStore "b2".data = none) ∧
    (∃ j, mergeEntries mergeStore "zz".data "b2".data true true
        = (Except.error (.notFound j), mergeStore)) :=
  ⟨Or.inl (by decide),
    (mergeEntries_notFound_no_deletion mergeStore "zz".data "b2".data
      true true).1 (Or.inl (by decide))⟩

/-! ## Pagination (src/services/storage.ts, `getEntriesPaginated`) -/

/-- `sortBy` argument of `getEntriesPaginated`. -/
inductive SortBy where
  | date
  | title
  | category
deriving DecidableEq, Repr

/-- `sortOrder` argument of `getEntriesPaginated`. -/
inductive SortOrder where
  | asc
  | desc
deriving DecidableEq, Repr

/-- The `comparison` value computed by the in-memory sort of
`getEntriesPaginated` (storage.ts lines 468-483).  `lc` stands for the
platform `String.prototype.localeCompare`; the date comparison subtracts the
`getTime()` values, which is the difference of the modelled timestamps. -/
def entryComparison (sortBy : SortBy) (lc : Str → Str → Int)
    (a b : Entry) : Int :=
  match sortBy with
  | .date => a.createdAt - b.createdAt
  | .title => lc a.title b.title
  | .category => lc a.category b.category

/-- The comparator `sortOrder === 'asc' ? comparison : -comparison` handed to
the stable JS sort, as a boolean "less or equal". -/
def entrySortLe (sortBy : SortBy) (sortOrder : SortOrder)
    (lc : Str → Str → Int) (a b : Entry) : Bool :=
  match sortOrder with
  | .asc => entryComparison sortBy lc a b ≤ 0
  | .desc => -(entryComparison sortBy lc a b) ≤ 0

/-- Result record of `getEntriesPaginated`. -/
structure PaginatedResult where
  entries : List Entry
  total : Nat
  hasMore : Bool
deriving DecidableEq, Repr

/-- `getEntriesPaginated` (storage.ts lines 440-496): count, early-return an
empty page when `offset >= total`, otherwise sort all entries in memory and
slice `[offset, offset + pageSize)`, with
`hasMore = offset + pageSize < total`. -/
def getEntriesPaginated (store : List Entry) (page pageSize : Nat)
    (sortBy : SortBy) (sortOrder : SortOrder) (lc : Str → Str → Int) :
    PaginatedResult :=
  let total := store.length
  let offset := (page - 1) * pageSize
  if total ≤ offset then { entries := [], total := total, hasMore := false }
  else
    let sorted := store.mergeSort (entrySortLe sortBy sortOrder lc)
    { entries := (sorted.drop offset).take pageSize
      total := total
      hasMore := decide (offset + pageSize < total) }

/-- The three fields of `getEntriesPaginated`, uniformly (the early return
coincides with the general slice). -/
theorem getEntriesPaginated_spec (store : List Entry) (page pageSize : Nat)
    (sortBy : SortBy) (sortOrder : SortOrder) (lc : Str → Str → Int) :
    (getEntriesPaginated store page pageSize sortBy sortOrder lc).entries
        = ((store.mergeSort (entrySortLe sortBy sortOrder lc)).drop
            ((page - 1) * pageSize)).take pageSize ∧
    (getEntriesPaginated store page pageSize sortBy sortOrder lc).total
        = store.length ∧
    (getEntriesPaginated store page pageSize sortBy sortOrder lc).hasMore
        = decide ((page - 1) * pageSize + pageSize < store.length) := by
  unfold getEntriesPaginated
  by_cases h : store.length ≤ (page - 1) * pageSize
  · rw [if_pos h]
    refine ⟨?_, rfl, ?_⟩
    · rw [List.drop_eq_nil_of_le (by rw [List.length_mergeSort]; exact h)]
      simp
    · simp only []
      symm
      exact decide_eq_false (by omega)
  · rw [if_neg h]
    exact ⟨rfl, rfl, rfl⟩

/-- C9: pagination returns the slice of the sorted entries at offset
`(page-1)*pageSize`, of length at most `pageSize`, with the full count as
`total` and `hasMore` exactly when `offset + pageSize < total`; over a store
of 25 entries, page 2 of size 10 has 10 entries with `hasMore`, and page 3
has the remaining 5 entries without `hasMore`. -/
theorem getEntriesPaginated_pages (store : List Entry) (page pageSize : Nat)
    (sortBy : SortBy) (sortOrder : SortOrder) (lc : Str → Str → Int)
    (hpage : 1 ≤ page) :
    (getEntriesPaginated store page pageSize sortBy sortOrder lc).entries
        = ((store.mergeSort (entrySortLe sortBy sortOrder lc)).drop
            ((page - 1) * pageSize)).take pageSize ∧
    (getEntriesPaginated store page pageSize sortBy sortOrder lc).total
        = store.length ∧
    (getEntriesPaginated store page pageSize sortBy sortOrder lc).hasMore
        = decide ((page - 1) * pageSize + pageSize < store.length) ∧
    (store.length = 25 →
      (getEntriesPaginated store 2 10 sortBy sortOrder lc).entries.length
          = 10 ∧
      (getEntriesPaginated store 2 10 sortBy sortOrder lc).total = 25 ∧
      (getEntriesPaginated store 2 10 sortBy sortOrder lc).hasMore = true ∧
      (getEntriesPaginated store 3 10 sortBy sortOrder lc).entries.length
          = 5 ∧
      (getEntriesPaginated store 3 10 sortBy sortOrder lc).hasMore = false) := by
  obtain ⟨h1, h2, h3⟩ := getEntriesPaginated_spec store page pageSize
    sortBy sortOrder lc
  obtain ⟨g1, g2, g3⟩ := getEntriesPaginated_spec store 2 10
    sortBy sortOrder lc
  obtain ⟨k1, k2, k3⟩ := getEntriesPaginated_spec store 3 10
    sortBy sortOrder lc
  refine ⟨h1, h2, h3, fun h25 => ⟨?_, ?_, ?_, ?_, ?_⟩⟩
  · rw [g1]
    simp [List.length_take, List.length_drop, List.length_mergeSort, h25]
  · rw [g2, h25]
  · rw [g3]
    simp [h25]
  · rw [k1]
    simp [List.length_take, List.length_drop, List.length_mergeSort, h25]
  · rw [k3]
    simp [h25]

/-- A concrete 25-entry store for the pagination witness. -/
def store25 : List Entry :=
  (List.range 25).map fun i =>
    { sampleEntry with id := (Nat.repr i).data, createdAt := (i : Int) }

/-- Trivial stand-in for `localeCompare` (only `sortBy = date` is exercised
by the witness). -/
def lcConst : Str → Str → Int := fun _ _ => 0

theorem getEntriesPaginated_pages_witness :
    1 ≤ 2 ∧ store25.length = 25 ∧
    (getEntriesPaginated store25 2 10 .date .desc lcConst).entries.length
        = 10 ∧
    (getEntriesPaginated store25 2 10 .date .desc lcConst).hasMore = true ∧
    (getEntriesPaginated store25 3 10 .date .desc lcConst).entries.length
        = 5 ∧
    (getEntriesPaginated store25 3 10 .date .desc lcConst).hasMore = false := by
  have h25 : store25.length = 25 := by
    simp [store25]
  have h := (getEntriesPaginated_pages store25 2 10 .date .desc lcConst
    (by norm_num)).2.2.2 h25
  exact ⟨by norm_num, h25, h.1, h.2.2.1, h.2.2.2.1, h.2.2.2.2⟩

/-! ## Similarity engine (src/services/similarity.ts) -/

/-- JS `\s` whitespace, restricted to the usual ASCII whitespace. -/
def isJsWS (c : Char) : Bool :=
  c = ' ' ∨ c = '\t' ∨ c = '\n' ∨ c = '\r' ∨ c = '\x0b' ∨ c = '\x0c'

/-- `replace(/\s+/g, ' ')`: collapse every whitespace run to one space
(`prevWS` records whether the previous character was part of a run). -/
def collapseWSAux (prevWS : Bool) : Str → Str
  | [] => []
  | c :: rest =>
    if isJsWS c then
      if prevWS then collapseWSAux true rest
      else ' ' :: collapseWSAux true rest
    else c :: collapseWSAux false rest

/-- `replace(/\s+/g, ' ')`. -/
def collapseWS (s : Str) : Str :=
  collapseWSAux false s

/-- `String.prototype.trim()`. -/
def jsTrim (s : Str) : Str :=
  ((s.dropWhile isJsWS).reverse.dropWhile isJsWS).reverse

/-- `normalizeText` (similarity.ts): lowercase, collapse whitespace, trim. -/
def normalizeText (s : Str) : Str :=
  jsTrim (collapseWS (s.map Char.toLower))

/-- JS `ToInt32` (the effect of `hash & hash` / `<<` on a number). -/
def toInt32 (n : Int) : Int :=
  (n + 2 ^ 31) % 2 ^ 32 - 2 ^ 31

/-- One iteration of `generateContentHash`:
`hash = (hash << 5) - hash + char; hash = hash & hash`. -/
def hashStep (hash : Int) (c : Char) : Int :=
  toInt32 (toInt32 (hash * 32) - hash + (c.toNat : Int))

/-- Base-36 digit as produced by `Number.prototype.toString(36)`. -/
def digit36 (d : Nat) : Char :=
  if d < 10 then Char.ofNat (48 + d) else Char.ofNat (87 + d)

/-- Base-36 representation of a natural number (fueled so that the kernel
can evaluate it; `n + 1` units of fuel always suffice since the argument at
least halves each step). -/
def natToBase36Aux : Nat → Nat → Str
  | 0, _ => []
  | fuel + 1, n =>
    if n < 36 then [digit36 n]
    else natToBase36Aux fuel (n / 36) ++ [digit36 (n % 36)]

/-- Base-36 representation of a natural number. -/
def natToBase36 (n : Nat) : Str :=
  natToBase36Aux (n + 1) n

/-- `Number.prototype.toString(36)` on an integer. -/
def intToBase36 (n : Int) : Str :=
  if n < 0 then '-' :: natToBase36 n.natAbs else natToBase36 n.toNat

/-- `generateContentHash` (similarity.ts): the JS 32-bit string hash of the
normalized content, rendered in base 36. -/
def generateContentHash (content : Str) : Str :=
  intToBase36 ((normalizeText content).foldl hashStep 0)

/-- `isExactDuplicate` (similarity.ts): same URL and same content hash. -/
def isExactDuplicate (e1 e2 : Entry) : Bool :=
  if e1.url = e2.url then
    generateContentHash e1.content = generateContentHash e2.content
  else false

/-- `levenshteinDistance` (similarity.ts): unit-cost edit distance; the
Wagner-Fischer matrix recurrence of the source, written recursively with a
fuel argument so that the kernel can evaluate it.  Every recursive call
shrinks the summed length by at least one, so `s1.length + s2.length` units
of fuel suffice (`levenshteinDistance_cons` below recovers the fuel-free
recurrence). -/
def levAux : Nat → Str → Str → Nat
  | _, [], s2 => s2.length
  | _, s1, [] => s1.length
  | 0, _, _ => 0
  | fuel + 1, a :: s1, b :: s2 =>
    if a = b then levAux fuel s1 s2
    else 1 + min (levAux fuel s1 s2)
      (min (levAux fuel s1 (b :: s2)) (levAux fuel (a :: s1) s2))

/-- `levenshteinDistance` (similarity.ts). -/
def levenshteinDistance (s1 s2 : Str) : Nat :=
  levAux (s1.length + s2.length) s1 s2

theorem levAux_nil_left (f : Nat) (s2 : Str) : levAux f [] s2 = s2.length := by
  cases f <;> cases s2 <;> rfl

theorem levAux_nil_right (f : Nat) (s1 : Str) : levAux f s1 [] = s1.length := by
  cases f <;> cases s1 <;> rfl

theorem levAux_cons (f : Nat) (a b : Char) (s1 s2 : Str) :
    levAux (f + 1) (a :: s1) (b :: s2)
      = if a = b then levAux f s1 s2
        else 1 + min (levAux f s1 s2)
          (min (levAux f s1 (b :: s2)) (levAux f (a :: s1) s2)) := rfl

/-- The fuel is irrelevant as long as it is sufficient. -/
theorem levAux_eq_of_le : ∀ (f g : Nat) (s1 s2 : Str),
    s1.length + s2.length ≤ f → s1.length + s2.length ≤ g →
    levAux f s1 s2 = levAux g s1 s2 := by
  intro f
  induction f with
  | zero =>
    intro g s1 s2 hf _
    rcases s1 with - | ⟨a, s1⟩
    · rw [levAux_nil_left, levAux_nil_left]
    · simp at hf
  | succ f ih =>
    intro g s1 s2 hf hg
    rcases s1 with - | ⟨a, s1⟩
    · rw [levAux_nil_left, levAux_nil_left]
    · rcases s2 with - | ⟨b, s2⟩
      · rw [levAux_nil_right, levAux_nil_right]
      · simp only [List.length_cons] at hf hg
        rcases g with - | g
        · omega
        · rw [levAux_cons, levAux_cons]
          rw [ih g s1 s2 (by omega) (by omega),
            ih g s1 (b :: s2) (by simp; omega) (by simp; omega),
            ih g (a :: s1) s2 (by simp; omega) (by simp; omega)]

/-- `levenshteinDistance` satisfies the Wagner-Fischer recurrence of the
source. -/
theorem levenshteinDistance_cons (a b : Char) (s1 s2 : Str) :
    levenshteinDistance (a :: s1) (b :: s2)
      = if a = b then levenshteinDistance s1 s2
        else 1 + min (levenshteinDistance s1 s2)
          (min (levenshteinDistance s1 (b :: s2))
            (levenshteinDistance (a :: s1) s2)) := by
  unfold levenshteinDistance
  rw [show (a :: s1).length + (b :: s2).length
      = (s1.length + (s2.length + 1)) + 1 from by simp; omega]
  rw [levAux_cons]
  by_cases hab : a = b
  · rw [if_pos hab, if_pos hab]
    exact levAux_eq_of_le _ _ _ _ (by omega) (by omega)
  · rw [if_neg hab, if_neg hab]
    rw [levAux_eq_of_le _ (s1.length + s2.length) s1 s2 (by omega) (by omega),
      levAux_eq_of_le _ (s1.length + (b :: s2).length) s1 (b :: s2)
        (by simp) (by simp),
      levAux_eq_of_le _ ((a :: s1).length + s2.length) (a :: s1) s2
        (by simp; omega) (by simp)]

/-- `levenshteinSimilarity` (similarity.ts): `1 - distance / maxLen`. -/
def levenshteinSimilarity (text1 text2 : Str) : ℚ :=
  let maxLen := max text1.length text2.length
  if maxLen = 0 then 1
  else 1 - (levenshteinDistance text1 text2 : ℚ) / (maxLen : ℚ)

/-- JS `split(/\s+/)` (the accumulator holds the current word reversed;
`inSep` records whether the previous character belonged to a separator
run). -/
def splitOnWSAux (inSep : Bool) (cur : Str) : Str → List Str
  | [] => [cur.reverse]
  | c :: rest =>
    if isJsWS c then
      if inSep then splitOnWSAux true cur rest
      else cur.reverse :: splitOnWSAux true [] rest
    else splitOnWSAux false (c :: cur) rest

/-- JS `split(/\s+/)`. -/
def splitOnWS (s : Str) : List Str :=
  splitOnWSAux false [] s

/-- The word set `new Set(text.split(/\s+/).filter(w => w.length > 2))`. -/
def wordSet (s : Str) : Finset Str :=
  ((splitOnWS s).filter fun w => 2 < w.length).toFinset

/-- `jaccardSimilarity` (similarity.ts): intersection over union of the word
sets. -/
def jaccardSimilarity (text1 text2 : Str) : ℚ :=
  let words1 := wordSet text1
  let words2 := wordSet text2
  if words1.card = 0 ∧ words2.card = 0 then 1
  else if words1.card = 0 ∨ words2.card = 0 then 0
  else ((words1 ∩ words2).card : ℚ) / ((words1 ∪ words2).card : ℚ)

/-- `calculateTextSimilarity` (similarity.ts): empty (falsy) inputs score 0;
Levenshtein for normalized strings under 50 characters, Jaccard otherwise. -/
def calculateTextSimilarity (text1 text2 : Str) : ℚ :=
  if text1 = [] ∨ text2 = [] then 0
  else
    let normalized1 := normalizeText text1
    let normalized2 := normalizeText text2
    if normalized1.length < 50 ∨ normalized2.length < 50 then
      levenshteinSimilarity normalized1 normalized2
    else jaccardSimilarity normalized1 normalized2

/-- The `hostname` / `pathname` pair of a parsed URL. -/
structure URLParts where
  hostname : Str
  pathname : Str
deriving DecidableEq, Repr

/-- `calculateURLSimilarity` (similarity.ts): same hostname and pathname
scores 0.9, same hostname alone 0.5, otherwise 0; if either `new URL(...)`
throws, the fallback compares the raw strings and scores 1.0 on equality.
`parseURL` stands for the platform `new URL(...)`. -/
def calculateURLSimilarity (parseURL : Str → Option URLParts)
    (url1 url2 : Str) : ℚ :=
  match parseURL url1, parseURL url2 with
  | some parsed1, some parsed2 =>
    if parsed1.hostname = parsed2.hostname ∧
        parsed1.pathname = parsed2.pathname then 9/10
    else if parsed1.hostname = parsed2.hostname then 5/10
    else 0
  | _, _ => if url1 = url2 then 1 else 0

/-- `entry.metadata?.imageUrl || entry.content`. -/
def imageUrlOf (e : Entry) : Str :=
  match e.metadata with
  | some m =>
    match m.imageUrl with
    | some u => if u = [] then e.content else u
    | none => e.content
  | none => e.content

/-- `entry.metadata?.altText || ''`. -/
def altTextOf (e : Entry) : Str :=
  (e.metadata.bind (·.altText)).getD []

/-- `String.prototype.startsWith('data:')`. -/
def startsWithData (s : Str) : Bool :=
  s.take 5 = "data:".data

/-- `calculateImageSimilarity` (similarity.ts): equal image URLs score 1.0,
data-URLs with equal first 1000 characters score 0.95, otherwise both alt
texts (when nonempty) are compared as text, else 0. -/
def calculateImageSimilarity (e1 e2 : Entry) : ℚ :=
  let url1 := imageUrlOf e1
  let url2 := imageUrlOf e2
  if url1 = url2 then 1
  else if startsWithData url1 ∧ startsWithData url2 ∧
      url1.take 1000 = url2.take 1000 then 95/100
  else
    let alt1 := altTextOf e1
    let alt2 := altTextOf e2
    if alt1 ≠ [] ∧ alt2 ≠ [] then calculateTextSimilarity alt1 alt2
    else 0

/-- The type-aware `contentSimilarity` computed inside `calculateSimilarity`
(similarity.ts lines 20-30): it stays 0 when the types differ. -/
def contentSimilarityOf (e1 e2 : Entry) : ℚ :=
  if e1.type = e2.type then
    if e1.type = .text ∨ e1.type = .page then
      calculateTextSimilarity e1.content e2.content
    else if e1.type = .image then calculateImageSimilarity e1 e2
    else 0
  else 0

/-- `calculateSimilarity` (similarity.ts lines 7-50): exact-duplicate
shortcut to 1.0; direct 0.95 when the URL similarity is exactly 1.0;
otherwise the weighted combination `0.3*url + 0.5*content + 0.2*title`. -/
def calculateSimilarity (parseURL : Str → Option URLParts)
    (e1 e2 : Entry) : ℚ :=
  if isExactDuplicate e1 e2 then 1
  else
    let urlSimilarity := calculateURLSimilarity parseURL e1.url e2.url
    if urlSimilarity = 1 then 95/100
    else
      let contentSimilarity := contentSimilarityOf e1 e2
      let titleSimilarity := calculateTextSimilarity e1.title e2.title
      urlSimilarity * (3/10) + contentSimilarity * (5/10)
        + titleSimilarity * (2/10)

/-- `matchType` values of a `DuplicateMatch` (src/types/index.ts). -/
inductive MatchType where
  | exact
  | nearDuplicate
  | url
  | content
deriving DecidableEq, Repr

/-- `determineMatchType` (similarity.ts). -/
def determineMatchType (e1 e2 : Entry) (similarity : ℚ) : MatchType :=
  if 99/100 ≤ similarity then .exact
  else if e1.url = e2.url then .url
  else if 8/10 ≤ calculateTextSimilarity e1.content e2.content then .content
  else .nearDuplicate

/-- `generateMatchReason` (similarity.ts; the entry arguments are unused in
the source). -/
def generateMatchReason (matchType : MatchType) : Str :=
  match matchType with
  | .exact => "Exact duplicate: Same URL and content".data
  | .url => "Same URL: Content captured from the same page".data
  | .content => "Similar content: Text is very similar".data
  | .nearDuplicate => "Near duplicate: Similar title and content".data

/-- `DuplicateMatch` (src/types/index.ts). -/
structure DuplicateMatch where
  entry : Entry
  similarity : ℚ
  matchType : MatchType
  reason : Str
deriving DecidableEq, Repr

/-- The comparator `(a, b) => b.similarity - a.similarity` of the final sort
in `findDuplicates`. -/
def matchLe (a b : DuplicateMatch) : Bool :=
  b.similarity ≤ a.similarity

/-- `findDuplicates` (similarity.ts lines 55-96): score every candidate
except self, keep those at or above the threshold, classify and attach a
reason, sort by descending similarity. -/
def findDuplicates (parseURL : Str → Option URLParts) (newEntry : Entry)
    (existingEntries : List Entry) (threshold : ℚ) : List DuplicateMatch :=
  let found := existingEntries.filterMap fun existing =>
    if existing.id = newEntry.id then none
    else
      let similarity := calculateSimilarity parseURL newEntry existing
      if threshold ≤ similarity then
        let matchType := determineMatchType newEntry existing similarity
        some { entry := existing, similarity := similarity,
               matchType := matchType,
               reason := generateMatchReason matchType }
      else none
  found.mergeSort matchLe

/-! ### Symmetry of the similarity engine -/

theorem levAux_comm : ∀ (f : Nat) (s1 s2 : Str),
    levAux f s1 s2 = levAux f s2 s1 := by
  intro f
  induction f with
  | zero =>
    intro s1 s2
    rcases s1 with - | ⟨a, s1⟩
    · rw [levAux_nil_left, levAux_nil_right]
    · rcases s2 with - | ⟨b, s2⟩
      · rw [levAux_nil_left, levAux_nil_right]
      · rfl
  | succ f ih =>
    intro s1 s2
    rcases s1 with - | ⟨a, s1⟩
    · rw [levAux_nil_left, levAux_nil_right]
    · rcases s2 with - | ⟨b, s2⟩
      · rw [levAux_nil_left, levAux_nil_right]
      · rw [levAux_cons, levAux_cons]
        rcases eq_or_ne a b with hab | hab
        · rw [if_pos hab, if_pos hab.symm, ih]
        · rw [if_neg hab, if_neg (Ne.symm hab), ih s1 s2, ih s1 (b :: s2),
            ih (a :: s1) s2]
          omega

theorem levenshteinDistance_comm (s1 s2 : Str) :
    levenshteinDistance s1 s2 = levenshteinDistance s2 s1 := by
  unfold levenshteinDistance
  rw [Nat.add_comm, levAux_comm]

theorem levenshteinSimilarity_comm (t1 t2 : Str) :
    levenshteinSimilarity t1 t2 = levenshteinSimilarity t2 t1 := by
  simp only [levenshteinSimilarity]
  rw [Nat.max_comm, levenshteinDistance_comm]

theorem jaccardSimilarity_comm (t1 t2 : Str) :
    jaccardSimilarity t1 t2 = jaccardSimilarity t2 t1 := by
  simp only [jaccardSimilarity]
  rw [Finset.inter_comm, Finset.union_comm]
  by_cases h1 : (wordSet t1).card = 0 <;> by_cases h2 : (wordSet t2).card = 0 <;>
    simp [h1, h2]

theorem calculateTextSimilarity_comm (t1 t2 : Str) :
    calculateTextSimilarity t1 t2 = calculateTextSimilarity t2 t1 := by
  simp only [calculateTextSimilarity]
  by_cases h1 : t1 = [] <;> by_cases h2 : t2 = [] <;> simp only [h1, h2] <;>
    try simp
  by_cases ha : (normalizeText t1).length < 50 <;>
    by_cases hb : (normalizeText t2).length < 50 <;>
    simp [ha, hb, levenshteinSimilarity_comm (normalizeText t1),
      jaccardSimilarity_comm (normalizeText t1)]

theorem calculateURLSimilarity_comm (parseURL : Str → Option URLParts)
    (url1 url2 : Str) :
    calculateURLSimilarity parseURL url1 url2
      = calculateURLSimilarity parseURL url2 url1 := by
  have hfall : (if url1 = url2 then (1:ℚ) else 0)
      = if url2 = url1 then 1 else 0 :=
    if_congr ⟨Eq.symm, Eq.symm⟩ rfl rfl
  simp only [calculateURLSimilarity]
  rcases hp1 : parseURL url1 with - | p1 <;>
    rcases hp2 : parseURL url2 with - | p2
  · exact hfall
  · exact hfall
  · exact hfall
  · refine if_congr ?_ rfl (if_congr ⟨Eq.symm, Eq.symm⟩ rfl rfl)
    constructor
    · rintro ⟨h1, h2⟩
      exact ⟨h1.symm, h2.symm⟩
    · rintro ⟨h1, h2⟩
      exact ⟨h1.symm, h2.symm⟩

theorem isExactDuplicate_comm (e1 e2 : Entry) :
    isExactDuplicate e1 e2 = isExactDuplicate e2 e1 := by
  simp only [isExactDuplicate]
  by_cases h : e1.url = e2.url
  · rw [if_pos h, if_pos h.symm]
    simp [eq_comm]
  · rw [if_neg h, if_neg (fun hh => h hh.symm)]

theorem calculateImageSimilarity_comm (e1 e2 : Entry) :
    calculateImageSimilarity e1 e2 = calculateImageSimilarity e2 e1 := by
  simp only [calculateImageSimilarity]
  by_cases hu : imageUrlOf e1 = imageUrlOf e2
  · rw [if_pos hu, if_pos hu.symm]
  · have hu2 : ¬ imageUrlOf e2 = imageUrlOf e1 := fun hh => hu hh.symm
    rw [if_neg hu, if_neg hu2]
    refine if_congr ?_ rfl (if_congr ?_ ?_ rfl)
    · constructor
      · rintro ⟨h1, h2, h3⟩
        exact ⟨h2, h1, h3.symm⟩
      · rintro ⟨h1, h2, h3⟩
        exact ⟨h2, h1, h3.symm⟩
    · constructor
      · rintro ⟨h1, h2⟩
        exact ⟨h2, h1⟩
      · rintro ⟨h1, h2⟩
        exact ⟨h2, h1⟩
    · exact calculateTextSimilarity_comm _ _

theorem contentSimilarityOf_comm (e1 e2 : Entry) :
    contentSimilarityOf e1 e2 = contentSimilarityOf e2 e1 := by
  simp only [contentSimilarityOf]
  by_cases ht : e1.type = e2.type
  · rw [if_pos ht, if_pos ht.symm, ← ht]
    by_cases htp : e1.type = .text ∨ e1.type = .page
    · rw [if_pos htp, if_pos htp]
      exact calculateTextSimilarity_comm e1.content e2.content
    · rw [if_neg htp, if_neg htp]
      by_cases hi : e1.type = .image
      · rw [if_pos hi, if_pos hi]
        exact calculateImageSimilarity_comm e1 e2
      · rw [if_neg hi, if_neg hi]
  · rw [if_neg ht, if_neg (fun hh => ht hh.symm)]

/-- C10: the similarity score is symmetric: every branch of
`calculateSimilarity` — exact-duplicate check, URL similarity (including the
invalid-URL string-equality fallback), type-aware content similarity
(including the image comparisons), title similarity, and the weighted
combination — is invariant under swapping the two entries. -/
theorem calculateSimilarity_comm (parseURL : Str → Option URLParts)
    (e1 e2 : Entry) :
    calculateSimilarity parseURL e1 e2 = calculateSimilarity parseURL e2 e1 := by
  simp only [calculateSimilarity]
  rw [show isExactDuplicate e2 e1 = isExactDuplicate e1 e2 from
      (isExactDuplicate_comm e1 e2).symm,
    show calculateURLSimilarity parseURL e2.url e1.url
        = calculateURLSimilarity parseURL e1.url e2.url from
      (calculateURLSimilarity_comm parseURL e1.url e2.url).symm,
    show contentSimilarityOf e2 e1 = contentSimilarityOf e1 e2 from
      (contentSimilarityOf_comm e1 e2).symm,
    show calculateTextSimilarity e2.title e1.title
        = calculateTextSimilarity e1.title e2.title from
      (calculateTextSimilarity_comm e1.title e2.title).symm]

/-- C7: `findDuplicates` on a clone with identical url and content but a
different id returns exactly one match with similarity 1.0 and matchType
`exact`: the exact-duplicate shortcut (identical url, identical content hash)
forces the score to 1.0, and any threshold at most 1.0 keeps the match. -/
theorem findDuplicates_exact_clone (parseURL : Str → Option URLParts)
    (e c : Entry) (threshold : ℚ)
    (hurl : c.url = e.url) (hcontent : c.content = e.content)
    (hid : c.id ≠ e.id) (hthr : threshold ≤ 1) :
    findDuplicates parseURL e [c] threshold
      = [{ entry := c, similarity := 1, matchType := .exact,
           reason := "Exact duplicate: Same URL and content".data }] := by
  have hexact : isExactDuplicate e c = true := by
    simp only [isExactDuplicate]
    rw [if_pos hurl.symm, hcontent]
    simp
  have hsim : calculateSimilarity parseURL e c = 1 := by
    simp only [calculateSimilarity]
    rw [if_pos hexact]
  have hmt : determineMatchType e c (calculateSimilarity parseURL e c)
      = .exact := by
    rw [hsim]
    simp only [determineMatchType]
    rw [if_pos (by norm_num)]
  simp only [findDuplicates, List.filterMap_cons, List.filterMap_nil]
  rw [if_neg hid, if_pos (hsim ▸ hthr), hmt, hsim]
  exact List.mergeSort_of_sorted (List.pairwise_singleton _ _)

/-- Modelled from the platform `new URL(...)`: parses simple
`https://host/path` URLs into hostname and pathname (the pathname defaults
to `/`); everything else fails to parse, as `new URL` throws.  Used to
instantiate the `parseURL` parameter on concrete inputs. -/
def parseURLSimple (s : Str) : Option URLParts :=
  if s.take 8 = "https://".data then
    let rest := s.drop 8
    let host := rest.takeWhile (· ≠ '/')
    let path := rest.dropWhile (· ≠ '/')
    if host = [] then none
    else some { hostname := host
                pathname := if path = [] then "/".data else path }
  else none

/-- A clone of `sampleEntry`: identical url and content, different id. -/
def cloneEntry : Entry :=
  { sampleEntry with id := "a1-copy".data }

theorem findDuplicates_exact_clone_witness :
    cloneEntry.url = sampleEntry.url ∧
    cloneEntry.content = sampleEntry.content ∧
    cloneEntry.id ≠ sampleEntry.id ∧
    (8 : ℚ)/10 ≤ 1 ∧
    findDuplicates parseURLSimple sampleEntry [cloneEntry] (8/10)
      = [{ entry := cloneEntry, similarity := 1, matchType := .exact,
           reason := "Exact duplicate: Same URL and content".data }] :=
  ⟨rfl, rfl, by decide, by norm_num,
    findDuplicates_exact_clone parseURLSimple sampleEntry cloneEntry (8/10)
      rfl rfl (by decide) (by norm_num)⟩

/-- C4 (amended): when the two entries are not exact duplicates and both URLs
parse with the same hostname and the same pathname, the URL similarity is 0.9
— not 1.0 — so the `urlSimilarity === 1.0` shortcut does *not* fire and the
score falls through to the weighted combination
`0.3*0.9 + 0.5*content + 0.2*title`.  (The direct 0.95 return happens only
when the URL similarity is exactly 1.0, i.e. in the invalid-URL
string-equality fallback.) -/
theorem sameHostPath_weighted_combination (parseURL : Str → Option URLParts)
    (a b : Entry) (pa pb : URLParts)
    (hex : isExactDuplicate a b = false)
    (ha : parseURL a.url = some pa) (hb : parseURL b.url = some pb)
    (hhost : pa.hostname = pb.hostname) (hpath : pa.pathname = pb.pathname) :
    calculateSimilarity parseURL a b
      = (9:ℚ)/10 * (3/10) + contentSimilarityOf a b * (5/10)
        + calculateTextSimilarity a.title b.title * (2/10) := by
  have hurl : calculateURLSimilarity parseURL a.url b.url = 9/10 := by
    simp only [calculateURLSimilarity, ha, hb]
    rw [if_pos ⟨hhost, hpath⟩]
  simp only [calculateSimilarity]
  rw [if_neg (by simp [hex]), hurl, if_neg (by norm_num)]

/-- First entry of the counterexample: a valid URL, short content `aaaa`. -/
def entryCa : Entry :=
  { sampleEntry with
    id := "ca".data
    content := "aaaa".data
    title := "ta".data }

/-- Second entry of the counterexample: the same valid URL, content
`bbbb`. -/
def entryCb : Entry :=
  { sampleEntry with
    id := "cb".data
    content := "bbbb".data
    title := "tb".data }

/-- C4 as stated is false on the code: `entryCa` and `entryCb` are not exact
duplicates and share hostname `x.com` and pathname `/a`, yet the score is the
weighted combination 0.37, not the claimed direct 0.95 — the code compares
the URL similarity against 1.0, which the same-hostname-and-path case (0.9)
never reaches. -/
theorem sameHostPath_no_direct_095 :
    isExactDuplicate entryCa entryCb = false ∧
    parseURLSimple entryCa.url
      = some { hostname := "x.com".data, pathname := "/a".data } ∧
    parseURLSimple entryCb.url
      = some { hostname := "x.com".data, pathname := "/a".data } ∧
    calculateSimilarity parseURLSimple entryCa entryCb = 37/100 ∧
    calculateSimilarity parseURLSimple entryCa entryCb ≠ 95/100 := by
  have htext : calculateTextSimilarity "aaaa".data "bbbb".data = 0 := by
    simp only [calculateTextSimilarity]
    rw [if_neg (by decide), if_pos (by decide)]
    simp only [levenshteinSimilarity]
    rw [if_neg (by decide)]
    rw [show levenshteinDistance (normalizeText "aaaa".data)
        (normalizeText "bbbb".data) = 4 from by decide,
      show max (normalizeText "aaaa".data).length
        (normalizeText "bbbb".data).length = 4 from by decide]
    norm_num
  have hcontent : contentSimilarityOf entryCa entryCb = 0 := by
    simp only [contentSimilarityOf]
    rw [if_pos (show entryCa.type = entryCb.type from rfl),
      if_pos (show entryCa.type = EntryType.text ∨ entryCa.type = EntryType.page
        from Or.inl rfl)]
    exact htext
  have htitle : calculateTextSimilarity entryCa.title entryCb.title = 1/2 := by
    simp only [calculateTextSimilarity]
    rw [if_neg (by decide), if_pos (by decide)]
    simp only [levenshteinSimilarity]
    rw [if_neg (by decide)]
    rw [show levenshteinDistance (normalizeText entryCa.title)
        (normalizeText entryCb.title) = 1 from by decide,
      show max (normalizeText entryCa.title).length
        (normalizeText entryCb.title).length = 2 from by decide]
    norm_num
  have hsim : calculateSimilarity parseURLSimple entryCa entryCb = 37/100 := by
    have h := sameHostPath_weighted_combination parseURLSimple entryCa entryCb
      { hostname := "x.com".data, pathname := "/a".data }
      { hostname := "x.com".data, pathname := "/a".data }
      (by decide) (by decide) (by decide) rfl rfl
    rw [h, hcontent, htitle]
    norm_num
  exact ⟨by decide, by decide, by decide, hsim, by rw [hsim]; norm_num⟩

theorem sameHostPath_weighted_combination_witness :
    isExactDuplicate entryCa entryCb = false ∧
    parseURLSimple entryCa.url
      = some { hostname := "x.com".data, pathname := "/a".data } ∧
    parseURLSimple entryCb.url
      = some { hostname := "x.com".data, pathname := "/a".data } ∧
    calculateSimilarity parseURLSimple entryCa entryCb
      = (9:ℚ)/10 * (3/10) + contentSimilarityOf entryCa entryCb * (5/10)
        + calculateTextSimilarity entryCa.title entryCb.title * (2/10) :=
  ⟨by decide, by decide, by decide,
    sameHostPath_weighted_combination parseURLSimple entryCa entryCb
      { hostname := "x.com".data, pathname := "/a".data }
      { hostname := "x.com".data, pathname := "/a".data }
      (by decide) (by decide) (by decide) rfl rfl⟩
